import Mathlib

/-!
Shallow embedding of the route-composition layer of the `stund` backend
(`backend/router/router.go`) together with the JSON/auth helpers
(`backend/utils/helpers.go`).

Conventions of the embedding:
* HTTP handlers are opaque to the routing layer, so a handler is represented
  by a numeric identifier (`Nat`); `none` is Go's nil handler.
* Middleware functions are likewise opaque and represented by numeric
  identifiers; a node's `middlewares` slice becomes a `List Nat`.
* The chi dispatcher is modelled by the list of registrations it receives:
  each `Registration` records the method, the full path (a chi sub-scope
  mounted at `P` contributes `P` as a prefix to the paths registered inside
  it), the handler and the middleware wrapped around the handler by
  `registerMethodWithMiddleware`.
* Writing to an `io.Writer` is modelled by returning the written `String`.
* A Go panic (nil-pointer dereference, out-of-range index) is modelled by
  `Option.none` in the functions that can reach one.
-/

/-- HTTPMethod from router.go: GET, POST, PUT, DELETE, Undefined. -/
inductive HTTPMethod where
  | GET
  | POST
  | PUT
  | DELETE
  | Undefined
deriving DecidableEq, Repr

/-- String form of a method, as printed by `fmt.Fprintf("  %s %s\n", ...)`
(the underlying string of the Go `HTTPMethod` constant). -/
def HTTPMethod.methodString : HTTPMethod → String
  | .GET => "GET"
  | .POST => "POST"
  | .PUT => "PUT"
  | .DELETE => "DELETE"
  | .Undefined => "Undefined"

/-- RouteNode from router.go: children (ordered), requestInfo (method and
route segment), middlewares, optional handler. Handlers and middleware are
identified by `Nat` ids, see the module docstring. -/
inductive RouteNode : Type where
  | mk (children : List RouteNode) (method : HTTPMethod) (route : String)
       (middlewares : List Nat) (handler : Option Nat) : RouteNode

/-- Children accessor (`n.children`). -/
def RouteNode.children : RouteNode → List RouteNode
  | .mk c _ _ _ _ => c

/-- Method accessor (`n.info.method`). -/
def RouteNode.method : RouteNode → HTTPMethod
  | .mk _ m _ _ _ => m

/-- Route-segment accessor (`n.info.route`). -/
def RouteNode.route : RouteNode → String
  | .mk _ _ r _ _ => r

/-- Middlewares accessor (`n.middlewares`). -/
def RouteNode.middlewares : RouteNode → List Nat
  | .mk _ _ _ mw _ => mw

/-- Handler accessor (`n.handler`). -/
def RouteNode.handler : RouteNode → Option Nat
  | .mk _ _ _ _ h => h

/-- Strong induction on a route tree: to prove `P n` for every node it
suffices to prove it for a node assuming it for all of its children. -/
def RouteNode.inductionOn {P : RouteNode → Prop}
    (h : ∀ c m r mw hd, (∀ x ∈ c, P x) → P (RouteNode.mk c m r mw hd)) :
    ∀ n, P n
  | RouteNode.mk c m r mw hd => h c m r mw hd (fun x hx => RouteNode.inductionOn h x)
termination_by n => sizeOf n
decreasing_by
  have h1 : sizeOf x < sizeOf c := List.sizeOf_lt_of_mem hx
  simp only [RouteNode.mk.sizeOf_spec]
  omega

/-- One route registration received by the chi dispatcher: method, full
path, handler id, and the middleware wrapped around the handler by
`registerMethodWithMiddleware` (exactly `node.middlewares`, in order). -/
structure Registration where
  method : HTTPMethod
  path : String
  handler : Nat
  middlewares : List Nat
deriving DecidableEq, Repr

/-- Prefixing a registration's path with a mount point: a chi sub-scope
`Route(P, ...)` makes every route registered inside it reachable at
`P ++ path`. -/
def Registration.prepend (a : String) (r : Registration) : Registration :=
  { r with path := a ++ r.path }

mutual
/-- registerWithChi from router.go. A pure grouping node (Undefined method,
nil handler, at least one child, non-empty current path) opens a chi
sub-scope at `currentPath` and registers its children inside it with an
empty running base path; a node with a handler registers
`(method, currentPath, handler, middlewares)` for GET/POST/PUT/DELETE and
nothing for Undefined, and returns without visiting its children; any other
node passes `currentPath` through to its children. -/
def registerWithChi : RouteNode → String → List Registration
  | .mk c m r mws h, basePath =>
    let currentPath := basePath ++ r
    if m = .Undefined ∧ h = none ∧ 0 < c.length ∧ 0 < currentPath.length then
      (registerChiList c "").map (Registration.prepend currentPath)
    else
      match h with
      | some hid =>
        match m with
        | .GET => [⟨.GET, currentPath, hid, mws⟩]
        | .POST => [⟨.POST, currentPath, hid, mws⟩]
        | .PUT => [⟨.PUT, currentPath, hid, mws⟩]
        | .DELETE => [⟨.DELETE, currentPath, hid, mws⟩]
        | .Undefined => []
      | none => registerChiList c currentPath

/-- Registration of a list of sibling nodes, in order (the `for _, child`
loops of registerWithChi). -/
def registerChiList : List RouteNode → String → List Registration
  | [], _ => []
  | x :: xs, basePath => registerWithChi x basePath ++ registerChiList xs basePath
end

/-- Method-and-path view of the registrations produced by a node. -/
def registeredPairs (n : RouteNode) (basePath : String) : List (HTTPMethod × String) :=
  (registerWithChi n basePath).map (fun rg => (rg.method, rg.path))

mutual
/-- writeRoute from router.go, with the written bytes returned: a node with
a non-nil handler and a method other than Undefined contributes the line
`"  METHOD path\n"`, and every node's children are visited with
`currentPath` as the new base. -/
def writeRoute : RouteNode → String → String
  | .mk c m r _ h, basePath =>
    let currentPath := basePath ++ r
    (if h ≠ none ∧ m ≠ .Undefined then
      "  " ++ m.methodString ++ " " ++ currentPath ++ "\n"
    else "") ++ writeRouteList c currentPath

/-- Printing of a list of sibling nodes, in order. -/
def writeRouteList : List RouteNode → String → String
  | [], _ => ""
  | x :: xs, basePath => writeRoute x basePath ++ writeRouteList xs basePath
end

mutual
/-- The (method, fullPath) pairs appearing in writeRoute's output, in
printing order. -/
def writeRoutePairs : RouteNode → String → List (HTTPMethod × String)
  | .mk c m r _ h, basePath =>
    let currentPath := basePath ++ r
    (if h ≠ none ∧ m ≠ .Undefined then [(m, currentPath)] else [])
      ++ writeRoutePairsList c currentPath

/-- Pairs printed for a list of sibling nodes, in order. -/
def writeRoutePairsList : List RouteNode → String → List (HTTPMethod × String)
  | [], _ => []
  | x :: xs, basePath => writeRoutePairs x basePath ++ writeRoutePairsList xs basePath
end

mutual
/-- writeRoute with the tree state threaded explicitly: the traversal
returns the tree as it observed it together with the written output.  The
Go code only reads node fields, so the returned tree reconstructs each node
from exactly the reads the code performs. -/
def writeRouteTrace : RouteNode → String → RouteNode × String
  | .mk c m r mw h, basePath =>
    let currentPath := basePath ++ r
    let own := if h ≠ none ∧ m ≠ .Undefined then
        "  " ++ m.methodString ++ " " ++ currentPath ++ "\n"
      else ""
    let rest := writeRouteTraceList c currentPath
    (RouteNode.mk rest.1 m r mw h, own ++ rest.2)

/-- Trace of printing a list of sibling nodes, in order. -/
def writeRouteTraceList : List RouteNode → String → List RouteNode × String
  | [], _ => ([], "")
  | x :: xs, basePath =>
    let hd := writeRouteTrace x basePath
    let tl := writeRouteTraceList xs basePath
    (hd.1 :: tl.1, hd.2 ++ tl.2)
end

mutual
/-- The well-formedness condition under which the printer and the
materializer agree: every node carrying a (non-nil) handler is a leaf. -/
def handlerLeaves : RouteNode → Bool
  | .mk c _ _ _ h => (h.isNone || c.isEmpty) && handlerLeavesList c

/-- handlerLeaves for every node of a list. -/
def handlerLeavesList : List RouteNode → Bool
  | [] => true
  | x :: xs => handlerLeaves x && handlerLeavesList xs
end

/-- Concatenation of a list of strings, in order, with no separators. -/
def concatAll : List String → String
  | [] => ""
  | s :: ss => s ++ concatAll ss

/-- A chain of nested grouping nodes over the given segments, ending in the
given subtree: `nest [a, b] t` is the tree built by
`Route(a, Route(b, ...t...))`. -/
def nest (segments : List String) (leaf : RouteNode) : RouteNode :=
  match segments with
  | [] => leaf
  | s :: ss => RouteNode.mk [nest ss leaf] .Undefined s [] none

/-- The descendant relation on route trees (reflexive, through `children`). -/
inductive Subnode : RouteNode → RouteNode → Prop where
  | refl (n : RouteNode) : Subnode n n
  | child {m x : RouteNode} {c : List RouteNode} {mth : HTTPMethod} {r : String}
      {mw : List Nat} {h : Option Nat} :
      x ∈ c → Subnode m x → Subnode m (RouteNode.mk c mth r mw h)

/-- newRouteNode from router.go: builds a fresh node with the given method,
pattern and handler (and no children or middleware), appends it to the
parent's children and returns (updated parent, new node).  There is no
failure path. -/
def RouteNode.newRouteNode (n : RouteNode) (method : HTTPMethod) (pattern : String)
    (handler : Option Nat) : RouteNode × RouteNode :=
  let newNode := RouteNode.mk [] method pattern [] handler
  (RouteNode.mk (n.children ++ [newNode]) n.method n.route n.middlewares n.handler, newNode)

/-- Route from router.go: creates an Undefined grouping child under the
parent and lets the callback populate it.  The Go callback mutates the
freshly created node in place; functionally, the configured subtree
`f (fresh node)` is appended to the parent's children. -/
def RouteNode.Route (n : RouteNode) (pattern : String) (f : RouteNode → RouteNode) : RouteNode :=
  RouteNode.mk (n.children ++ [f (RouteNode.mk [] .Undefined pattern [] none)])
    n.method n.route n.middlewares n.handler

/-- With from router.go: appends interceptors to the node's middlewares and
returns the node. -/
def RouteNode.With (n : RouteNode) (mws : List Nat) : RouteNode :=
  RouteNode.mk n.children n.method n.route (n.middlewares ++ mws) n.handler

/-- Get from router.go: sugar over newRouteNode with method GET. -/
def RouteNode.Get (n : RouteNode) (pattern : String) (handler : Nat) : RouteNode × RouteNode :=
  n.newRouteNode .GET pattern (some handler)

/-- Post from router.go: sugar over newRouteNode with method POST. -/
def RouteNode.Post (n : RouteNode) (pattern : String) (handler : Nat) : RouteNode × RouteNode :=
  n.newRouteNode .POST pattern (some handler)

/-- Put from router.go: sugar over newRouteNode with method PUT. -/
def RouteNode.Put (n : RouteNode) (pattern : String) (handler : Nat) : RouteNode × RouteNode :=
  n.newRouteNode .PUT pattern (some handler)

/-- Delete from router.go: sugar over newRouteNode with method DELETE. -/
def RouteNode.Delete (n : RouteNode) (pattern : String) (handler : Nat) : RouteNode × RouteNode :=
  n.newRouteNode .DELETE pattern (some handler)

/-- routerWrapped from router.go: the (nil-able) pointer to the route-tree
slice, plus the registrations the chi mux has received so far.  The chi
middleware installed by New (logger, recoverer, CORS, ...) is outside the
tree layer and not modelled. -/
structure RouterWrapped where
  routeTree : Option (List RouteNode)
  registered : List Registration

/-- New from router.go, restricted to the tree state: a one-element slice
holding the synthetic root (Undefined method, empty segment), and no
registrations yet. -/
def routerNew : RouterWrapped :=
  { routeTree := some [RouteNode.mk [] .Undefined "" [] none], registered := [] }

/-- ClearRouteTree from router.go: sets the tree pointer to nil. -/
def clearRouteTree (r : RouterWrapped) : RouterWrapped :=
  { r with routeTree := none }

/-- WriteRoutes from router.go, with the tree state threaded explicitly.
Dereferencing a nil tree pointer, or indexing an empty slice, is a Go
panic, modelled as `none`; otherwise the root is printed with an empty base
path and the traversed tree is put back. -/
def writeRoutesTraceW (r : RouterWrapped) : Option (RouterWrapped × String) :=
  match r.routeTree with
  | none => none
  | some [] => none
  | some (root :: rest) =>
    let t := writeRouteTrace root ""
    some ({ r with routeTree := some (t.1 :: rest) }, t.2)

/-- The apiRoot constant of SetupRoutes: "/api" + "/" + version. -/
def apiRoot : String := "/api" ++ "/" ++ "v1"

/-- Identifier standing for the health-check handler closure. -/
def healthHandlerId : Nat := 0

/-- SetupRoutes from router.go, with providers as tree transformers.  The
root (element 0 of the tree slice; a nil pointer or empty slice would
panic, modelled as `none`) gets a grouping child at apiRoot populated by
the providers, then — directly on the root, not on the apiRoot node — a GET
"/health" child; finally registerWithChi runs on the root with an empty
base path. -/
def setupRoutesW (r : RouterWrapped) (providers : List (RouteNode → RouteNode)) :
    Option RouterWrapped :=
  match r.routeTree with
  | none => none
  | some [] => none
  | some (root :: rest) =>
    let root1 := root.Route apiRoot (fun n => providers.foldl (fun acc p => p acc) n)
    let root2 := (root1.Get "/health" healthHandlerId).1
    some { routeTree := some (root2 :: rest),
           registered := r.registered ++ registerWithChi root2 "" }

/-- Method-and-path view of everything a wrapper has registered. -/
def registeredPairsW (w : RouterWrapped) : List (HTTPMethod × String) :=
  w.registered.map (fun rg => (rg.method, rg.path))

/-- Escaping of one character as performed by Go's encoding/json encoder
with its default HTML escaping: quote and backslash are backslash-escaped,
newline, carriage return and tab use their short forms, the HTML
characters and the remaining control characters use the \u00xx form
(lowercase hex); everything else is emitted as itself. -/
def escapeJSONChar (c : Char) : String :=
  if c = '"' then "\\\""
  else if c = '\\' then "\\\\"
  else if c = '\n' then "\\n"
  else if c = '\r' then "\\r"
  else if c = '\t' then "\\t"
  else if c = '<' then "\\u003c"
  else if c = '>' then "\\u003e"
  else if c = '&' then "\\u0026"
  else if c.toNat < 32 then
    "\\u00" ++ String.singleton (Nat.digitChar (c.toNat / 16))
      ++ String.singleton (Nat.digitChar (c.toNat % 16))
  else String.singleton c

/-- JSON string literal encoding. -/
def encodeJSONString (s : String) : String :=
  "\"" ++ concatAll (s.data.map escapeJSONChar) ++ "\""

/-- Insertion of one key-value pair into a key-sorted field list. -/
def insertField (p : String × String) : List (String × String) → List (String × String)
  | [] => [p]
  | q :: qs => if p.1 ≤ q.1 then p :: q :: qs else q :: insertField p qs

/-- Key-sorted view of a field list: Go's encoding/json emits map keys in
sorted order. -/
def sortFields : List (String × String) → List (String × String)
  | [] => []
  | p :: ps => insertField p (sortFields ps)

/-- JSON encoding of a Go map[string]string value. -/
def encodeStringMap (m : List (String × String)) : String :=
  "\x7b" ++ String.intercalate ","
    ((sortFields m).map (fun p => encodeJSONString p.1 ++ ":" ++ encodeJSONString p.2))
    ++ "\x7d"

/-- JSON encoding of the APIResponse envelope from helpers.go: `success` is
always present; `data` (here: an optional string map, `none` for Go nil) and
`error` carry omitempty, so nil data and an empty error string are omitted;
json.Encoder.Encode appends a newline. -/
def encodeAPIResponse (success : Bool) (data : Option (List (String × String)))
    (errorMsg : String) : String :=
  "\x7b\"success\":" ++ (if success then "true" else "false")
  ++ (match data with
      | none => ""
      | some m => ",\"data\":" ++ encodeStringMap m)
  ++ (if errorMsg = "" then "" else ",\"error\":" ++ encodeJSONString errorMsg)
  ++ "\x7d\n"

/-- An HTTP response as produced by RespondWithJSON: status code,
Content-Type header value, body bytes. -/
structure Response where
  status : Nat
  contentType : String
  body : String
deriving DecidableEq, Repr

/-- RespondWithJSON from helpers.go: sets Content-Type application/json,
writes the status, and JSON-encodes the envelope. -/
def respondWithJSON (status : Nat) (success : Bool) (data : Option (List (String × String)))
    (errorMsg : String) : Response :=
  { status := status
    contentType := "application/json"
    body := encodeAPIResponse success data errorMsg }

/-- The response produced by the health-check handler registered in
SetupRoutes: RespondWithJSON(w, 200, true, map[string]string{"status":
"healthy"}, ""). -/
def healthResponse : Response :=
  respondWithJSON 200 true (some [("status", "healthy")]) ""

/-- Outcome of one request passing through the auth interceptor: either
control reaches the next handler, or the interceptor answers with a
response itself. -/
inductive AuthOutcome where
  | proceed
  | reject (resp : Response)
deriving DecidableEq, Repr

/-- The "Bearer " prefix expected in the Authorization header. -/
def apiKeyPfx : String := "Bearer "

/-- MiddlewareAPIAuth from helpers.go, as a function of the configured key
and the Authorization header value (Go's Header.Get returns "" for an
absent header).  strings.HasPrefix is byte-prefix testing, here
List.isPrefixOf on the characters; strings.TrimPrefix drops the prefix
length; subtle.ConstantTimeCompare of the UTF-8 bytes returns 1 exactly
when the strings are equal. -/
def middlewareAPIAuth (configAPIKey : String) (authHeader : String) : AuthOutcome :=
  if authHeader = "" then
    .reject (respondWithJSON 401 false none "Missing API Key")
  else if !(apiKeyPfx.data.isPrefixOf authHeader.data) then
    .reject (respondWithJSON 401 false none "Invalid Authorization format.")
  else
    let headerAPIKey : String := ⟨authHeader.data.drop apiKeyPfx.data.length⟩
    if headerAPIKey ≠ configAPIKey then
      .reject (respondWithJSON 401 false none "Invalid API Key")
    else
      .proceed

/-- The body-size ceiling DecodeJSON installs via http.MaxBytesReader:
64 << 10 bytes, a constant independent of the request. -/
def maxRequestBodyBytes : Nat := 64 <<< 10

/-- DecodeJSON from helpers.go, at the granularity the routing layer sees:
a request body is abstracted to its byte size and the list of top-level
field names it carries (values play no role in the strictness check).
MaxBytesReader makes any body over the ceiling a read error, and
DisallowUnknownFields makes any field outside the target schema a decode
error. -/
def decodeJSON (schema : List String) (bodySize : Nat) (bodyFields : List String) :
    Except String Unit :=
  if maxRequestBodyBytes < bodySize then
    .error "http: request body too large"
  else if bodyFields.any (fun f => !(schema.contains f)) then
    .error "json: unknown field"
  else
    .ok ()

/-- String append is associative. -/
theorem strAppendAssoc (a b c : String) : (a ++ b) ++ c = a ++ (b ++ c) :=
  String.append_assoc a b c

/-- Appending the empty string on the right is the identity. -/
theorem strAppendEmpty (s : String) : s ++ "" = s := by simp

/-- Appending the empty string on the left is the identity. -/
theorem strEmptyAppend (s : String) : "" ++ s = s := by simp

/-- A string has length zero exactly when it is empty. -/
theorem strLengthEqZero (s : String) : s.length = 0 ↔ s = "" := by
  cases s with
  | mk data =>
    constructor
    · intro h
      have hd : data = [] := List.length_eq_zero.mp h
      simp [hd]
    · intro h
      rw [h]
      rfl

/-- A string has positive length exactly when it is non-empty. -/
theorem strLengthPos (s : String) : 0 < s.length ↔ s ≠ "" := by
  rw [Nat.pos_iff_ne_zero, not_iff_not]
  exact strLengthEqZero s

/-- A concatenation is empty exactly when both parts are. -/
theorem strAppendEqEmpty (s t : String) : s ++ t = "" ↔ s = "" ∧ t = "" := by
  cases s with
  | mk d1 =>
    cases t with
    | mk d2 =>
      constructor
      · intro h
        have hd : d1 ++ d2 = [] := congrArg String.data h
        rcases List.append_eq_nil.mp hd with ⟨h1, h2⟩
        exact ⟨by rw [h1], by rw [h2]⟩
      · rintro ⟨h1, h2⟩
        rw [h1, h2]
        rfl

/-- Two successive path prependings compose to one. -/
theorem regPrependComp (a p : String) (rg : Registration) :
    Registration.prepend a (Registration.prepend p rg) = Registration.prepend (a ++ p) rg := by
  simp [Registration.prepend, strAppendAssoc]

/-- Prepending the empty mount point changes nothing. -/
theorem regPrependEmpty (rg : Registration) : Registration.prepend "" rg = rg := by
  simp [Registration.prepend]

/-- Prepending the empty mount point over a whole list changes nothing. -/
theorem regPrependEmptyMap (l : List Registration) :
    l.map (Registration.prepend "") = l := by
  have h : (Registration.prepend "") = id := by
    funext rg
    exact regPrependEmpty rg
  rw [h, List.map_id]

/-- Membership in the registrations of a sibling list comes from one of the
siblings. -/
theorem mem_registerChiList (l : List RouteNode) (basePath : String) (rg : Registration) :
    rg ∈ registerChiList l basePath ↔ ∃ x ∈ l, rg ∈ registerWithChi x basePath := by
  induction l with
  | nil => simp [registerChiList]
  | cons x xs ih => simp [registerChiList, ih]

/-- Shifting a common prefix of the base path out of the registration of a
sibling list, given that each sibling allows it. -/
theorem registerChiList_append (l : List RouteNode)
    (ih : ∀ x ∈ l, ∀ a b : String,
      registerWithChi x (a ++ b) = (registerWithChi x b).map (Registration.prepend a)) :
    ∀ a b : String,
      registerChiList l (a ++ b) = (registerChiList l b).map (Registration.prepend a) := by
  induction l with
  | nil => intro a b; rfl
  | cons x xs ihl =>
    intro a b
    simp only [registerChiList]
    rw [ih x (by simp), ihl (fun y hy => ih y (List.mem_cons_of_mem x hy)), List.map_append]

/-- Registration only uses the base path as a prefix of every emitted full
path: registering against base `a ++ b` is registering against base `b` and
prefixing `a` onto every path.  This is the invariant that makes the chi
sub-scope branch (which restarts the running base path inside a mounted
subrouter) agree with plain concatenation. -/
theorem registerWithChi_append (n : RouteNode) : ∀ a b : String,
    registerWithChi n (a ++ b) = (registerWithChi n b).map (Registration.prepend a) := by
  induction n using RouteNode.inductionOn with
  | _ c m r mw hd ih =>
    intro a b
    simp only [registerWithChi]
    by_cases hbase : m = .Undefined ∧ hd = none ∧ 0 < c.length
    · obtain ⟨hm, hh, hc⟩ := hbase
      subst hm
      subst hh
      by_cases h2 : 0 < (b ++ r).length
      · have h1 : 0 < (a ++ b ++ r).length := by
          rw [strAppendAssoc, String.length_append]
          omega
        rw [if_pos ⟨rfl, rfl, hc, h1⟩, if_pos ⟨rfl, rfl, hc, h2⟩, List.map_map]
        have hcomp : (Registration.prepend a ∘ Registration.prepend (b ++ r))
            = Registration.prepend (a ++ (b ++ r)) := by
          funext rg
          exact regPrependComp a (b ++ r) rg
        rw [hcomp, strAppendAssoc]
      · have hbr : b ++ r = "" := by
          rw [← strLengthEqZero]
          omega
        obtain ⟨hb, hr⟩ := (strAppendEqEmpty b r).mp hbr
        subst hb
        subst hr
        have hnot2 : ¬ (HTTPMethod.Undefined = HTTPMethod.Undefined
            ∧ (none : Option Nat) = none ∧ 0 < c.length
            ∧ 0 < (("" : String) ++ "").length) :=
          fun hcon => h2 hcon.2.2.2
        rw [if_neg hnot2]
        by_cases ha : 0 < ((a ++ "") ++ "").length
        · rw [if_pos ⟨rfl, rfl, hc, ha⟩]
          have e1 : (a ++ "") ++ "" = a := by rw [strAppendEmpty, strAppendEmpty]
          rw [e1]
          rfl
        · rw [if_neg (fun hcon => ha hcon.2.2.2)]
          have hae : a = "" := by
            have h0 := (strLengthEqZero ((a ++ "") ++ "")).mp (by omega)
            rwa [strAppendEmpty, strAppendEmpty] at h0
          subst hae
          show registerChiList c (("" ++ "") ++ "")
              = (registerChiList c ("" ++ "")).map (Registration.prepend "")
          rw [regPrependEmptyMap]
          rfl
    · have hnot1 : ¬ (m = .Undefined ∧ hd = none ∧ 0 < c.length
          ∧ 0 < (a ++ b ++ r).length) :=
        fun hcon => hbase ⟨hcon.1, hcon.2.1, hcon.2.2.1⟩
      have hnot2 : ¬ (m = .Undefined ∧ hd = none ∧ 0 < c.length
          ∧ 0 < (b ++ r).length) :=
        fun hcon => hbase ⟨hcon.1, hcon.2.1, hcon.2.2.1⟩
      rw [if_neg hnot1, if_neg hnot2]
      cases hd with
      | some hid =>
        cases m <;> simp [Registration.prepend, strAppendAssoc]
      | none =>
        rw [strAppendAssoc]
        exact registerChiList_append c ih a (b ++ r)

/-- The chi sub-scope branch computes the same registrations as carrying
the mount point forward as a base path. -/
theorem scope_eq_base (c : List RouteNode) (cp : String) :
    (registerChiList c "").map (Registration.prepend cp) = registerChiList c cp := by
  have h := registerChiList_append c (fun x _ => registerWithChi_append x) cp ""
  rw [strAppendEmpty] at h
  exact h.symm

/-- Every member of a list passing handlerLeavesList passes handlerLeaves. -/
theorem handlerLeavesList_mem {l : List RouteNode} (h : handlerLeavesList l = true) :
    ∀ x ∈ l, handlerLeaves x = true := by
  induction l with
  | nil => intro x hx; cases hx
  | cons y ys ih =>
    simp only [handlerLeavesList, Bool.and_eq_true] at h
    intro x hx
    rcases List.mem_cons.mp hx with h1 | h2
    · rw [h1]; exact h.1
    · exact ih h.2 x h2

/-- Printed pairs of a sibling list agree with the registered pairs of that
list, provided each sibling does. -/
theorem pairsList_eq (l : List RouteNode)
    (ih : ∀ x ∈ l, handlerLeaves x = true → ∀ bp, writeRoutePairs x bp = registeredPairs x bp)
    (hl : handlerLeavesList l = true) (bp : String) :
    writeRoutePairsList l bp = (registerChiList l bp).map (fun rg => (rg.method, rg.path)) := by
  induction l with
  | nil => rfl
  | cons x xs ihl =>
    simp only [handlerLeavesList, Bool.and_eq_true] at hl
    simp only [writeRoutePairsList, registerChiList, List.map_append]
    rw [ih x (List.mem_cons_self x xs) hl.1 bp]
    rw [ihl (fun y hy => ih y (List.mem_cons_of_mem x hy)) hl.2]
    rfl

/-- On trees whose handler-carrying nodes are leaves, the printer's
(method, fullPath) pairs coincide (in order) with the registered ones. -/
theorem printedEqRegisteredAux (n : RouteNode) :
    handlerLeaves n = true → ∀ bp, writeRoutePairs n bp = registeredPairs n bp := by
  induction n using RouteNode.inductionOn with
  | _ c m r mw hd ih =>
    intro hleaves bp
    simp only [handlerLeaves, Bool.and_eq_true, Bool.or_eq_true] at hleaves
    obtain ⟨hown, hlist⟩ := hleaves
    cases hd with
    | some hid =>
      have hcnil : c = [] := by
        rcases hown with h1 | h2
        · simp [Option.isNone] at h1
        · exact List.isEmpty_iff.mp h2
      subst hcnil
      cases m <;>
        simp [writeRoutePairs, writeRoutePairsList, registeredPairs,
          registerWithChi, registerChiList]
    | none =>
      have hprint : writeRoutePairs (RouteNode.mk c m r mw none) bp
          = writeRoutePairsList c (bp ++ r) := by
        simp [writeRoutePairs]
      rw [hprint]
      by_cases hgroup : m = .Undefined ∧ 0 < c.length ∧ 0 < (bp ++ r).length
      · have hreg : registerWithChi (RouteNode.mk c m r mw none) bp
            = (registerChiList c "").map (Registration.prepend (bp ++ r)) := by
          simp only [registerWithChi]
          rw [if_pos ⟨hgroup.1, trivial, hgroup.2.1, hgroup.2.2⟩]
        rw [registeredPairs, hreg, scope_eq_base]
        exact pairsList_eq c (fun x hx => ih x hx) hlist (bp ++ r)
      · have hreg : registerWithChi (RouteNode.mk c m r mw none) bp
            = registerChiList c (bp ++ r) := by
          simp only [registerWithChi]
          rw [if_neg (fun hcon => hgroup ⟨hcon.1, hcon.2.2.1, hcon.2.2.2⟩)]
        rw [registeredPairs, hreg]
        exact pairsList_eq c (fun x hx => ih x hx) hlist (bp ++ r)

/-- Definitional unfolding of registerWithChi on a constructor. -/
theorem registerWithChi_eq (c : List RouteNode) (m : HTTPMethod) (r : String)
    (mws : List Nat) (h : Option Nat) (basePath : String) :
    registerWithChi (RouteNode.mk c m r mws h) basePath =
      if m = .Undefined ∧ h = none ∧ 0 < c.length ∧ 0 < (basePath ++ r).length then
        (registerChiList c "").map (Registration.prepend (basePath ++ r))
      else
        match h with
        | some hid =>
          match m with
          | .GET => [⟨.GET, basePath ++ r, hid, mws⟩]
          | .POST => [⟨.POST, basePath ++ r, hid, mws⟩]
          | .PUT => [⟨.PUT, basePath ++ r, hid, mws⟩]
          | .DELETE => [⟨.DELETE, basePath ++ r, hid, mws⟩]
          | .Undefined => []
        | none => registerChiList c (basePath ++ r) := rfl

/-- Definitional unfolding of writeRoutePairs on a constructor. -/
theorem writeRoutePairs_eq (c : List RouteNode) (m : HTTPMethod) (r : String)
    (mws : List Nat) (h : Option Nat) (basePath : String) :
    writeRoutePairs (RouteNode.mk c m r mws h) basePath =
      (if h ≠ none ∧ m ≠ .Undefined then [(m, basePath ++ r)] else [])
        ++ writeRoutePairsList c (basePath ++ r) := rfl

/-- C1 (amended): on every route tree in which each node carrying a non-nil
handler is a leaf, the sequence of (method, fullPath) pairs emitted by the
Route Printer equals the sequence of (method, fullPath) pairs registered
with the dispatcher by the Materializer, a sub-scope at path P with a child
at path Q counting as full path P ++ Q; in general the printer additionally
emits the descendants of handler-carrying nodes, which the materializer
never registers. -/
theorem c1_printed_pairs_eq_registered_pairs (n : RouteNode) (basePath : String)
    (h : handlerLeaves n = true) :
    writeRoutePairs n basePath = registeredPairs n basePath :=
  printedEqRegisteredAux n h basePath

/-- Witness for C1: a grouping node over one GET leaf satisfies the leaf
condition and printer and materializer agree on it. -/
theorem c1_printed_pairs_eq_registered_pairs_witness :
    handlerLeaves (RouteNode.mk [RouteNode.mk [] .GET "/a" [] (some 1)]
        .Undefined "/p" [] none) = true
    ∧ writeRoutePairs (RouteNode.mk [RouteNode.mk [] .GET "/a" [] (some 1)]
        .Undefined "/p" [] none) ""
      = registeredPairs (RouteNode.mk [RouteNode.mk [] .GET "/a" [] (some 1)]
        .Undefined "/p" [] none) "" :=
  ⟨by decide,
    c1_printed_pairs_eq_registered_pairs
      (RouteNode.mk [RouteNode.mk [] .GET "/a" [] (some 1)] .Undefined "/p" [] none)
      "" (by decide)⟩

/-- Counterexample to C1 as stated: in the tree whose root has a GET "/a"
node with handler that itself has a GET "/b" child with handler, the
printer emits (GET, "/a/b") but the materializer never registers it, so the
printed and registered pair sets differ. -/
theorem c1_counterexample :
    (HTTPMethod.GET, "/a/b") ∈ writeRoutePairs
      (RouteNode.mk [RouteNode.mk [RouteNode.mk [] .GET "/b" [] (some 2)]
        .GET "/a" [] (some 1)] .Undefined "" [] none) ""
    ∧ (HTTPMethod.GET, "/a/b") ∉ registeredPairs
      (RouteNode.mk [RouteNode.mk [RouteNode.mk [] .GET "/b" [] (some 2)]
        .GET "/a" [] (some 1)] .Undefined "" [] none) "" := by
  decide

/-- C6: a node with a non-nil handler and a real method is registered as
exactly its own route — the materializer returns without recursing into the
node's children, so no descendant of a handler-carrying node is ever
registered — while the printer prints the node's own line and still visits
and prints all of its children. -/
theorem c6_materializer_prunes_printer_visits (c : List RouteNode) (m : HTTPMethod)
    (r : String) (mw : List Nat) (hid : Nat) (basePath : String) (hm : m ≠ .Undefined) :
    registerWithChi (RouteNode.mk c m r mw (some hid)) basePath
      = [⟨m, basePath ++ r, hid, mw⟩]
    ∧ writeRoutePairs (RouteNode.mk c m r mw (some hid)) basePath
      = (m, basePath ++ r) :: writeRoutePairsList c (basePath ++ r) := by
  constructor
  · rw [registerWithChi_eq]
    rw [if_neg (fun hcon => hm hcon.1)]
    cases m
    · rfl
    · rfl
    · rfl
    · rfl
    · exact absurd rfl hm
  · rw [writeRoutePairs_eq]
    rw [if_pos ⟨Option.some_ne_none hid, hm⟩]
    rfl

/-- Witness for C6: a GET node with one GET child registers only itself but
prints itself and the child. -/
theorem c6_materializer_prunes_printer_visits_witness :
    registerWithChi (RouteNode.mk [RouteNode.mk [] .GET "/b" [] (some 2)]
        .GET "/a" [7] (some 1)) ""
      = [⟨.GET, "" ++ "/a", 1, [7]⟩]
    ∧ writeRoutePairs (RouteNode.mk [RouteNode.mk [] .GET "/b" [] (some 2)]
        .GET "/a" [7] (some 1)) ""
      = (HTTPMethod.GET, "" ++ "/a")
          :: writeRoutePairsList [RouteNode.mk [] .GET "/b" [] (some 2)] ("" ++ "/a") :=
  c6_materializer_prunes_printer_visits [RouteNode.mk [] .GET "/b" [] (some 2)]
    .GET "/a" [7] 1 "" (by decide)

/-- Registration of a chain of grouping nodes over a GET leaf: the full
path is the base path followed by the plain concatenation of all segments,
whether or not chi sub-scopes are opened along the way. -/
theorem nest_registered (cseg : String) (hid : Nat) : ∀ (ss : List String) (bp : String),
    registerWithChi (nest ss (RouteNode.mk [] .GET cseg [] (some hid))) bp
      = [⟨.GET, bp ++ (concatAll ss ++ cseg), hid, []⟩] := by
  intro ss
  induction ss with
  | nil =>
    intro bp
    show registerWithChi (RouteNode.mk [] .GET cseg [] (some hid)) bp = _
    rw [registerWithChi_eq]
    rw [if_neg (fun hcon => HTTPMethod.noConfusion hcon.1)]
    simp only [concatAll]
    rw [strEmptyAppend]
  | cons s ss ihs =>
    intro bp
    show registerWithChi (RouteNode.mk [nest ss (RouteNode.mk [] .GET cseg [] (some hid))]
      .Undefined s [] none) bp = _
    rw [registerWithChi_eq]
    by_cases hp : 0 < (bp ++ s).length
    · rw [if_pos ⟨rfl, rfl, by simp, hp⟩]
      have hl : registerChiList [nest ss (RouteNode.mk [] .GET cseg [] (some hid))] ""
          = registerWithChi (nest ss (RouteNode.mk [] .GET cseg [] (some hid))) "" := by
        simp [registerChiList]
      rw [hl, ihs ""]
      simp only [List.map_cons, List.map_nil, Registration.prepend]
      rw [strEmptyAppend, concatAll, strAppendAssoc, strAppendAssoc s (concatAll ss) cseg]
    · rw [if_neg (fun hcon => hp hcon.2.2.2)]
      have hps : bp ++ s = "" := by
        rw [← strLengthEqZero]
        omega
      obtain ⟨hb, hs⟩ := (strAppendEqEmpty bp s).mp hps
      subst hb
      subst hs
      have hl : registerChiList [nest ss (RouteNode.mk [] .GET cseg [] (some hid))] ("" ++ "")
          = registerWithChi (nest ss (RouteNode.mk [] .GET cseg [] (some hid))) "" := by
        simp [registerChiList]
      rw [hl, ihs ""]
      rfl

/-- Printed pairs of a chain of grouping nodes over a GET leaf: the same
concatenation law as for registration. -/
theorem nest_printed (cseg : String) (hid : Nat) : ∀ (ss : List String) (bp : String),
    writeRoutePairs (nest ss (RouteNode.mk [] .GET cseg [] (some hid))) bp
      = [(.GET, bp ++ (concatAll ss ++ cseg))] := by
  intro ss
  induction ss with
  | nil =>
    intro bp
    show writeRoutePairs (RouteNode.mk [] .GET cseg [] (some hid)) bp = _
    rw [writeRoutePairs_eq]
    rw [if_pos ⟨Option.some_ne_none hid, fun hcon => HTTPMethod.noConfusion hcon⟩]
    simp only [concatAll]
    rw [strEmptyAppend]
    rfl
  | cons s ss ihs =>
    intro bp
    show writeRoutePairs (RouteNode.mk [nest ss (RouteNode.mk [] .GET cseg [] (some hid))]
      .Undefined s [] none) bp = _
    rw [writeRoutePairs_eq]
    rw [if_neg (fun hcon => hcon.2 rfl)]
    have hl : writeRoutePairsList [nest ss (RouteNode.mk [] .GET cseg [] (some hid))] (bp ++ s)
        = writeRoutePairs (nest ss (RouteNode.mk [] .GET cseg [] (some hid))) (bp ++ s) := by
      simp [writeRoutePairsList]
    rw [List.nil_append, hl, ihs (bp ++ s)]
    rw [concatAll, strAppendAssoc, strAppendAssoc]

/-- C5: the full path of a leaf under any chain of grouping nodes is the
plain concatenation of the segments from the root to the leaf, in order
and with no separators inserted, both for the materializer and for the
printer; in particular the tree built by
Route("/a", Route("/b", Get("/c", h))) on a fresh root is such a chain and
yields the full path "/a/b/c". -/
theorem c5_full_path_is_concatenation (ss : List String) (cseg : String) (hid : Nat)
    (bp : String) :
    registeredPairs (nest ss (RouteNode.mk [] .GET cseg [] (some hid))) bp
      = [(.GET, bp ++ (concatAll ss ++ cseg))]
    ∧ writeRoutePairs (nest ss (RouteNode.mk [] .GET cseg [] (some hid))) bp
      = [(.GET, bp ++ (concatAll ss ++ cseg))]
    ∧ (RouteNode.mk [] .Undefined "" [] none).Route "/a"
        (fun n1 => n1.Route "/b" (fun n2 => (n2.Get "/c" hid).1))
      = nest ["", "/a", "/b"] (RouteNode.mk [] .GET "/c" [] (some hid))
    ∧ registeredPairs ((RouteNode.mk [] .Undefined "" [] none).Route "/a"
        (fun n1 => n1.Route "/b" (fun n2 => (n2.Get "/c" hid).1))) ""
      = [(.GET, "/a/b/c")] := by
  refine ⟨?_, nest_printed cseg hid ss bp, rfl, ?_⟩
  · rw [registeredPairs, nest_registered cseg hid ss bp]
    rfl
  · have h := nest_registered "/c" hid ["", "/a", "/b"] ""
    have he : (RouteNode.mk [] .Undefined "" [] none).Route "/a"
        (fun n1 => n1.Route "/b" (fun n2 => (n2.Get "/c" hid).1))
      = nest ["", "/a", "/b"] (RouteNode.mk [] .GET "/c" [] (some hid)) := rfl
    rw [registeredPairs, he, h]
    rfl

/-- Prepending a mount point changes only the path of a registration. -/
theorem regPrependFields (a : String) (rg : Registration) :
    (Registration.prepend a rg).method = rg.method
    ∧ (Registration.prepend a rg).handler = rg.handler
    ∧ (Registration.prepend a rg).middlewares = rg.middlewares :=
  ⟨rfl, rfl, rfl⟩

/-- Every registration produced by the materializer carries the method,
handler and middleware list of some node of the tree — and the middleware
list is exactly that node's own, not accumulated from its ancestors. -/
theorem registrationFromNodeAux (n : RouteNode) : ∀ (basePath : String) (rg : Registration),
    rg ∈ registerWithChi n basePath →
    ∃ m', Subnode m' n ∧ m'.method = rg.method ∧ m'.handler = some rg.handler
      ∧ rg.middlewares = m'.middlewares := by
  induction n using RouteNode.inductionOn with
  | _ c m r mw hd ih =>
    intro basePath rg hmem
    rw [registerWithChi_eq] at hmem
    by_cases hcond : m = .Undefined ∧ hd = none ∧ 0 < c.length
        ∧ 0 < (basePath ++ r).length
    · rw [if_pos hcond] at hmem
      rcases List.mem_map.mp hmem with ⟨rg0, hrg0, hrg⟩
      rcases (mem_registerChiList c "" rg0).mp hrg0 with ⟨x, hx, hrgx⟩
      rcases ih x hx "" rg0 hrgx with ⟨m', hsub, hmeth, hhand, hmws⟩
      refine ⟨m', Subnode.child hx hsub, ?_, ?_, ?_⟩
      · rw [hmeth, ← hrg]
        rfl
      · rw [hhand, ← hrg]
        rfl
      · rw [← hrg]
        exact hmws
    · rw [if_neg hcond] at hmem
      cases hd with
      | some hid =>
        cases m with
        | GET =>
          rcases List.mem_singleton.mp hmem with h
          subst h
          exact ⟨RouteNode.mk c .GET r mw (some hid), Subnode.refl _, rfl, rfl, rfl⟩
        | POST =>
          rcases List.mem_singleton.mp hmem with h
          subst h
          exact ⟨RouteNode.mk c .POST r mw (some hid), Subnode.refl _, rfl, rfl, rfl⟩
        | PUT =>
          rcases List.mem_singleton.mp hmem with h
          subst h
          exact ⟨RouteNode.mk c .PUT r mw (some hid), Subnode.refl _, rfl, rfl, rfl⟩
        | DELETE =>
          rcases List.mem_singleton.mp hmem with h
          subst h
          exact ⟨RouteNode.mk c .DELETE r mw (some hid), Subnode.refl _, rfl, rfl, rfl⟩
        | Undefined => cases hmem
      | none =>
        rcases (mem_registerChiList c (basePath ++ r) rg).mp hmem with ⟨x, hx, hrgx⟩
        rcases ih x hx (basePath ++ r) rg hrgx with ⟨m', hsub, hmeth, hhand, hmws⟩
        exact ⟨m', Subnode.child hx hsub, hmeth, hhand, hmws⟩

/-- C3: for every node of the tree whose registration reaches the
dispatcher, the middleware wrapped around the registration is exactly the
middleware list of that node itself (in append order); middleware attached
to any ancestor — grouping nodes included — is not applied to it. -/
theorem c3_middleware_is_exactly_own (n : RouteNode) (basePath : String)
    (rg : Registration) (h : rg ∈ registerWithChi n basePath) :
    ∃ m', Subnode m' n ∧ m'.method = rg.method ∧ m'.handler = some rg.handler
      ∧ rg.middlewares = m'.middlewares :=
  registrationFromNodeAux n basePath rg h

/-- Witness for C3: under a grouping node carrying middleware [10], the GET
child carrying middleware [20] is registered wrapped in [20] only. -/
theorem c3_middleware_is_exactly_own_witness :
    ∃ m', Subnode m' (RouteNode.mk [RouteNode.mk [] .GET "/g" [20] (some 5)]
        .Undefined "/p" [10] none)
      ∧ m'.method = (⟨.GET, "/p/g", 5, [20]⟩ : Registration).method
      ∧ m'.handler = some (⟨.GET, "/p/g", 5, [20]⟩ : Registration).handler
      ∧ (⟨.GET, "/p/g", 5, [20]⟩ : Registration).middlewares = m'.middlewares :=
  c3_middleware_is_exactly_own
    (RouteNode.mk [RouteNode.mk [] .GET "/g" [20] (some 5)] .Undefined "/p" [10] none)
    "" ⟨.GET, "/p/g", 5, [20]⟩ (by decide)

/-- Definitional unfolding of writeRoute on a constructor. -/
theorem writeRoute_eq (c : List RouteNode) (m : HTTPMethod) (r : String)
    (mws : List Nat) (h : Option Nat) (basePath : String) :
    writeRoute (RouteNode.mk c m r mws h) basePath =
      (if h ≠ none ∧ m ≠ .Undefined then
        "  " ++ m.methodString ++ " " ++ (basePath ++ r) ++ "\n"
      else "") ++ writeRouteList c (basePath ++ r) := rfl

/-- Definitional unfolding of writeRouteTrace on a constructor. -/
theorem writeRouteTrace_eq (c : List RouteNode) (m : HTTPMethod) (r : String)
    (mws : List Nat) (h : Option Nat) (basePath : String) :
    writeRouteTrace (RouteNode.mk c m r mws h) basePath =
      (RouteNode.mk (writeRouteTraceList c (basePath ++ r)).1 m r mws h,
        (if h ≠ none ∧ m ≠ .Undefined then
          "  " ++ m.methodString ++ " " ++ (basePath ++ r) ++ "\n"
        else "") ++ (writeRouteTraceList c (basePath ++ r)).2) := rfl

/-- Tracing a sibling list returns the very same list together with the
plain printer output, provided each sibling does. -/
theorem traceList_eq (l : List RouteNode)
    (ih : ∀ x ∈ l, ∀ bp, writeRouteTrace x bp = (x, writeRoute x bp)) (bp : String) :
    writeRouteTraceList l bp = (l, writeRouteList l bp) := by
  induction l with
  | nil => rfl
  | cons x xs ihl =>
    simp only [writeRouteTraceList, writeRouteList]
    rw [ih x (List.mem_cons_self x xs) bp,
      ihl (fun y hy => ih y (List.mem_cons_of_mem x hy))]

/-- Printing leaves the tree untouched: the traced traversal returns the
input tree unchanged, together with exactly the plain printer output. -/
theorem writeRouteTrace_id (n : RouteNode) : ∀ bp : String,
    writeRouteTrace n bp = (n, writeRoute n bp) := by
  induction n using RouteNode.inductionOn with
  | _ c m r mw hd ih =>
    intro bp
    rw [writeRouteTrace_eq, traceList_eq c ih (bp ++ r)]
    rfl

/-- C9: printing is pure with respect to the tree — a successful WriteRoutes
leaves the router (tree, methods, paths, middlewares, children order and
registrations) unchanged, and invoking it again on the result produces the
identical output. -/
theorem c9_printing_pure_and_idempotent (r : RouterWrapped) (p : RouterWrapped × String)
    (h : writeRoutesTraceW r = some p) :
    p.1 = r ∧ writeRoutesTraceW p.1 = some p := by
  obtain ⟨tree, reg⟩ := r
  cases tree with
  | none => simp [writeRoutesTraceW] at h
  | some l =>
    cases l with
    | nil => simp [writeRoutesTraceW] at h
    | cons root rest =>
      simp only [writeRoutesTraceW] at h
      rw [writeRouteTrace_id root ""] at h
      have hp : (RouterWrapped.mk (some (root :: rest)) reg,
          writeRoute root "") = p := Option.some.inj h
      subst hp
      constructor
      · rfl
      · show writeRoutesTraceW (RouterWrapped.mk (some (root :: rest)) reg) = _
        simp only [writeRoutesTraceW]
        rw [writeRouteTrace_id root ""]

/-- Witness for C9: on a freshly created router the traced WriteRoutes
returns the router unchanged with empty output, twice. -/
theorem c9_printing_pure_and_idempotent_witness :
    ((routerNew, ("" : String)).1 = routerNew)
    ∧ writeRoutesTraceW (routerNew, ("" : String)).1 = some (routerNew, "") :=
  c9_printing_pure_and_idempotent routerNew (routerNew, "") rfl

/-- C10: after ClearRouteTree has run, both WriteRoutes and SetupRoutes
dereference the nil tree pointer, so every such call fails deterministically
(a Go nil-pointer panic, modelled as none) instead of operating on stale
routes. -/
theorem c10_operations_after_clear_fail (r : RouterWrapped)
    (providers : List (RouteNode → RouteNode)) :
    writeRoutesTraceW (clearRouteTree r) = none
    ∧ setupRoutesW (clearRouteTree r) providers = none :=
  ⟨rfl, rfl⟩

/-- C4 (amended): newRouteNode never fails — a node with Undefined method
and a handler, or a real method and a nil handler, is constructed and
appended to the parent's children like any other node; however neither the
materializer nor the printer ever emits a route for such a node. -/
theorem c4_invalid_node_carried_never_registered (parent : RouteNode) (m : HTTPMethod)
    (pattern : String) (h : Option Nat) (basePath : String)
    (hbad : (m = .Undefined ∧ h ≠ none) ∨ (m ≠ .Undefined ∧ h = none)) :
    (parent.newRouteNode m pattern h).1.children
      = parent.children ++ [(parent.newRouteNode m pattern h).2]
    ∧ (parent.newRouteNode m pattern h).2 = RouteNode.mk [] m pattern [] h
    ∧ registerWithChi (RouteNode.mk [] m pattern [] h) basePath = []
    ∧ writeRoutePairs (RouteNode.mk [] m pattern [] h) basePath = [] := by
  refine ⟨rfl, rfl, ?_, ?_⟩
  · rw [registerWithChi_eq,
      if_neg (fun hcon => Nat.lt_irrefl 0 hcon.2.2.1)]
    rcases hbad with ⟨hm, hh⟩ | ⟨hm, hh⟩
    · subst hm
      cases h with
      | none => exact absurd rfl hh
      | some hid => rfl
    · subst hh
      rfl
  · rw [writeRoutePairs_eq]
    rcases hbad with ⟨hm, hh⟩ | ⟨hm, hh⟩
    · rw [if_neg (fun hcon => hcon.2 hm)]
      rfl
    · rw [if_neg (fun hcon => hcon.1 hh)]
      rfl

/-- Witness for C4: constructing an Undefined node with a handler under a
fresh root succeeds, is carried, and is never registered or printed. -/
theorem c4_invalid_node_carried_never_registered_witness :
    ((RouteNode.mk [] .Undefined "" [] none).newRouteNode .Undefined "/x" (some 3)).1.children
      = (RouteNode.mk [] .Undefined "" [] none).children
        ++ [((RouteNode.mk [] .Undefined "" [] none).newRouteNode .Undefined "/x" (some 3)).2]
    ∧ ((RouteNode.mk [] .Undefined "" [] none).newRouteNode .Undefined "/x" (some 3)).2
      = RouteNode.mk [] .Undefined "/x" [] (some 3)
    ∧ registerWithChi (RouteNode.mk [] .Undefined "/x" [] (some 3)) "" = []
    ∧ writeRoutePairs (RouteNode.mk [] .Undefined "/x" [] (some 3)) "" = [] :=
  c4_invalid_node_carried_never_registered (RouteNode.mk [] .Undefined "" [] none)
    .Undefined "/x" (some 3) "" (Or.inl ⟨rfl, by decide⟩)

/-- Counterexample to C4 as stated: constructing a node with Undefined
method and a non-nil handler does not fail fast — newRouteNode returns and
the broken node is silently carried in the parent's children. -/
theorem c4_counterexample :
    ((RouteNode.mk [] .Undefined "" [] none).newRouteNode .Undefined "/x" (some 0)).1.children
      = [RouteNode.mk [] .Undefined "/x" [] (some 0)] := rfl

/-- C2 (amended): after SetupRoutes runs with zero feature modules, exactly
one route is registered — the health check, with method GET at full path
"/health" (the health node hangs off the root, outside the /api/v1 scope) —
and its handler responds HTTP 200 with Content-Type application/json and
the JSON envelope with success true and data status healthy. -/
theorem c2_health_registered_at_root :
    (setupRoutesW routerNew []).map registeredPairsW = some [(HTTPMethod.GET, "/health")]
    ∧ healthResponse.status = 200
    ∧ healthResponse.contentType = "application/json"
    ∧ healthResponse.body = "\x7b\"success\":true,\"data\":\x7b\"status\":\"healthy\"\x7d\x7d\n" := by
  refine ⟨by decide, rfl, rfl, by decide⟩

/-- Counterexample to C2 as stated: after SetupRoutes with zero feature
modules, no route is registered at the full path "/api/v1/health" — the
health route lives at "/health". -/
theorem c2_counterexample :
    (setupRoutesW routerNew []).map
      (fun w => decide ((HTTPMethod.GET, "/api/v1/health") ∈ registeredPairsW w))
      = some false := by
  decide

/-- C7: for every configured shared secret and every request, the auth
interceptor passes control to the next handler exactly on header
"Bearer " ++ secret; an absent header yields 401 "Missing API Key"; a
present header without the "Bearer " prefix yields 401
"Invalid Authorization format."; a "Bearer "-prefixed header whose key
differs from the secret yields 401 "Invalid API Key". -/
theorem c7_auth_interceptor_cases (key hdr k : String) :
    (hdr = apiKeyPfx ++ key → middlewareAPIAuth key hdr = .proceed)
    ∧ (hdr = "" → middlewareAPIAuth key hdr
        = .reject (respondWithJSON 401 false none "Missing API Key"))
    ∧ (hdr ≠ "" → apiKeyPfx.data.isPrefixOf hdr.data = false →
        middlewareAPIAuth key hdr
        = .reject (respondWithJSON 401 false none "Invalid Authorization format."))
    ∧ (hdr = apiKeyPfx ++ k → k ≠ key → middlewareAPIAuth key hdr
        = .reject (respondWithJSON 401 false none "Invalid API Key")) := by
  refine ⟨?_, ?_, ?_, ?_⟩
  · intro hh
    subst hh
    have hne : apiKeyPfx ++ key ≠ "" := by
      intro hcon
      have h1 := ((strAppendEqEmpty apiKeyPfx key).mp hcon).1
      exact absurd h1 (by decide)
    have hpre : apiKeyPfx.data.isPrefixOf (apiKeyPfx ++ key).data = true := by
      rw [String.data_append, List.isPrefixOf_iff_prefix]
      exact List.prefix_append _ _
    have hdrop : (apiKeyPfx ++ key).data.drop apiKeyPfx.data.length = key.data := by
      rw [String.data_append]
      exact List.drop_left _ _
    have hmk : String.mk key.data = key := rfl
    simp [middlewareAPIAuth, hne, hpre, hdrop, hmk]
  · intro hh
    subst hh
    rfl
  · intro h1 h2
    simp [middlewareAPIAuth, h1, h2]
  · intro hh hk
    subst hh
    have hne : apiKeyPfx ++ k ≠ "" := by
      intro hcon
      have h1 := ((strAppendEqEmpty apiKeyPfx k).mp hcon).1
      exact absurd h1 (by decide)
    have hpre : apiKeyPfx.data.isPrefixOf (apiKeyPfx ++ k).data = true := by
      rw [String.data_append, List.isPrefixOf_iff_prefix]
      exact List.prefix_append _ _
    have hdrop : (apiKeyPfx ++ k).data.drop apiKeyPfx.data.length = k.data := by
      rw [String.data_append]
      exact List.drop_left _ _
    have hmk : String.mk k.data = k := rfl
    simp [middlewareAPIAuth, hne, hpre, hdrop, hmk, hk]

/-- Witness for C7: with secret "s3cret", header "Bearer s3cret" proceeds,
an absent header is 401 Missing API Key, "Token s3cret" is 401 Invalid
Authorization format., and "Bearer wrong" is 401 Invalid API Key. -/
theorem c7_auth_interceptor_cases_witness :
    middlewareAPIAuth "s3cret" "Bearer s3cret" = .proceed
    ∧ middlewareAPIAuth "s3cret" ""
        = .reject (respondWithJSON 401 false none "Missing API Key")
    ∧ middlewareAPIAuth "s3cret" "Token s3cret"
        = .reject (respondWithJSON 401 false none "Invalid Authorization format.")
    ∧ middlewareAPIAuth "s3cret" "Bearer wrong"
        = .reject (respondWithJSON 401 false none "Invalid API Key") :=
  ⟨(c7_auth_interceptor_cases "s3cret" "Bearer s3cret" "").1 (by decide),
   (c7_auth_interceptor_cases "s3cret" "" "").2.1 rfl,
   (c7_auth_interceptor_cases "s3cret" "Token s3cret" "").2.2.1 (by decide) (by decide),
   (c7_auth_interceptor_cases "s3cret" "Bearer wrong" "wrong").2.2.2 (by decide) (by decide)⟩

/-- C8: DecodeJSON rejects every JSON body carrying a field outside the
target schema, whatever the other fields are, and rejects every body larger
than the fixed ceiling 64 << 10 = 65536 bytes, a constant independent of
the request. -/
theorem c8_decode_strict_and_capped (schema : List String) (bodySize : Nat)
    (bodyFields : List String) :
    ((∃ f ∈ bodyFields, schema.contains f = false) →
      decodeJSON schema bodySize bodyFields ≠ Except.ok ())
    ∧ (maxRequestBodyBytes < bodySize →
      decodeJSON schema bodySize bodyFields ≠ Except.ok ())
    ∧ maxRequestBodyBytes = 65536 := by
  refine ⟨?_, ?_, rfl⟩
  · rintro ⟨f, hf, hnc⟩ hok
    unfold decodeJSON at hok
    by_cases hs : maxRequestBodyBytes < bodySize
    · rw [if_pos hs] at hok
      simp at hok
    · rw [if_neg hs] at hok
      have hany : bodyFields.any (fun g => !(schema.contains g)) = true :=
        List.any_eq_true.mpr ⟨f, hf, by show (!(schema.contains f)) = true; rw [hnc]; rfl⟩
      rw [if_pos hany] at hok
      simp at hok
  · intro hs hok
    unfold decodeJSON at hok
    rw [if_pos hs] at hok
    simp at hok

/-- Witness for C8: the schema with the single field "name" rejects the
body carrying fields "name" and "extra" even though "name" is present, and
rejects any 70000-byte body. -/
theorem c8_decode_strict_and_capped_witness :
    decodeJSON ["name"] 10 ["name", "extra"] ≠ Except.ok ()
    ∧ decodeJSON ["name"] 70000 ["name"] ≠ Except.ok () :=
  ⟨(c8_decode_strict_and_capped ["name"] 10 ["name", "extra"]).1
      ⟨"extra", by decide, by decide⟩,
   (c8_decode_strict_and_capped ["name"] 70000 ["name"]).2.1 (by decide)⟩

/-- Concatenation distributes over list append. -/
theorem concatAll_append (l1 l2 : List String) :
    concatAll (l1 ++ l2) = concatAll l1 ++ concatAll l2 := by
  induction l1 with
  | nil => rw [List.nil_append, concatAll, strEmptyAppend]
  | cons s ss ih => rw [List.cons_append, concatAll, concatAll, ih, strAppendAssoc]

/-- Rendering of a sibling list agrees with its printed pairs, provided
each sibling agrees. -/
theorem writeRouteList_render (l : List RouteNode)
    (ih : ∀ x ∈ l, ∀ bp, writeRoute x bp = concatAll ((writeRoutePairs x bp).map
      (fun p => "  " ++ p.1.methodString ++ " " ++ p.2 ++ "\n"))) (bp : String) :
    writeRouteList l bp = concatAll ((writeRoutePairsList l bp).map
      (fun p => "  " ++ p.1.methodString ++ " " ++ p.2 ++ "\n")) := by
  induction l with
  | nil => rfl
  | cons x xs ihl =>
    simp only [writeRouteList, writeRoutePairsList, List.map_append, concatAll_append]
    rw [ih x (List.mem_cons_self x xs) bp,
      ihl (fun y hy => ih y (List.mem_cons_of_mem x hy))]

/-- The bytes written by writeRoute are exactly the rendered lines of its
(method, fullPath) pairs, in order: the pair view used by the claims loses
no information against the raw printer output. -/
theorem writeRoute_render (n : RouteNode) : ∀ bp : String,
    writeRoute n bp = concatAll ((writeRoutePairs n bp).map
      (fun p => "  " ++ p.1.methodString ++ " " ++ p.2 ++ "\n")) := by
  induction n using RouteNode.inductionOn with
  | _ c m r mw hd ih =>
    intro bp
    rw [writeRoute_eq, writeRoutePairs_eq]
    by_cases hcond : hd ≠ none ∧ m ≠ HTTPMethod.Undefined
    · rw [if_pos hcond, if_pos hcond, List.map_append, concatAll_append]
      rw [writeRouteList_render c ih (bp ++ r)]
      simp only [List.map_cons, List.map_nil, concatAll]
      rw [strAppendEmpty]
    · rw [if_neg hcond, if_neg hcond, List.map_append, concatAll_append]
      rw [writeRouteList_render c ih (bp ++ r)]
      rfl
